import Mathlib

/-!
Verification development for the question-generator app in
src/streamlit_app.py.  The Python functions that the claims are about are
shallowly embedded below, working over `String` / `List Char`:

* `parse_comprehension_response` — the three-section regex split;
* `findBlocks` / `parse_generated_questions` — the MCQ block regex and the
  duplicate / reasoning-length filters;
* `process_generation_loop` — the bounded retry loop (the external API is a
  parameter, one response per attempt);
* `load_and_select_questions` — the Excel loader (the file read and the
  random sampling are parameters);
* the interactive display helpers `next_q`, `prev_q`, the index safety
  check, and the answer-checking feedback.

Python (unicode) whitespace is modelled on the ASCII range actually used by
the app, and `re.IGNORECASE` is modelled by comparing `Char.toLower`.
-/

set_option autoImplicit false

namespace StreamlitApp

/-- Case-insensitive character comparison, modelling `re.IGNORECASE`. -/
def lowerEqChar (a b : Char) : Bool := a.toLower == b.toLower

/-- Whitespace class of Python's `\s` and `str.strip()` (ASCII range). -/
def isPySpace (c : Char) : Bool :=
  c == ' ' || c == '\t' || c == '\n' || c == '\r' || c == '\x0b' || c == '\x0c'

/-- Case-insensitive "the pattern is a prefix of s". -/
def startsWithCI : List Char → List Char → Bool
  | [], _ => true
  | _ :: _, [] => false
  | p :: ps, c :: cs => lowerEqChar p c && startsWithCI ps cs

/-- Index of the first case-insensitive occurrence of `pat` in `s`
(the leftmost position of `re.search` on a literal pattern). -/
def findCI (pat : List Char) : List Char → Option Nat
  | [] => if startsWithCI pat [] then some 0 else none
  | c :: cs =>
    if startsWithCI pat (c :: cs) then some 0
    else (findCI pat cs).map (· + 1)

/-- Python `str.strip()` on a character list. -/
def pyStripList (s : List Char) : List Char :=
  ((s.dropWhile isPySpace).reverse.dropWhile isPySpace).reverse

/-- Python `str.strip()`. -/
def pyStrip (s : String) : String := ⟨pyStripList s.data⟩

/-- Lazy group of `re.search(open(.*?)close, s)` with `DOTALL|IGNORECASE`:
the text between the first occurrence of `openMark` and the first
occurrence of `closeMark` after it. -/
def searchBetween (openMark closeMark : List Char) (s : List Char) :
    Option (List Char) :=
  match findCI openMark s with
  | none => none
  | some i =>
    let rest := s.drop (i + openMark.length)
    match findCI closeMark rest with
    | none => none
    | some j => some (rest.take j)

/-- Embedding of `parse_comprehension_response` (src/streamlit_app.py:202).
The third pattern is `\[Answers\](.*?)$` with `DOTALL`: its lazy group is
the rest of the string up to a possible final newline, which `strip()`
removes anyway, so the group is modelled as the whole rest before
stripping. -/
def parse_comprehension_response (text_blob : String) :
    Option String × Option String × Option String :=
  let story := searchBetween "[Story]".data "[Questions]".data text_blob.data
  let questions :=
    searchBetween "[Questions]".data "[Answers]".data text_blob.data
  let answers := (findCI "[Answers]".data text_blob.data).map
    (fun i => text_blob.data.drop (i + "[Answers]".data.length))
  if story.isNone || questions.isNone || answers.isNone then
    (none, none, none)
  else
    (story.map (fun l => pyStrip ⟨l⟩), questions.map (fun l => pyStrip ⟨l⟩),
      answers.map (fun l => pyStrip ⟨l⟩))

theorem findCI_drop (pat : List Char) (hpat : pat ≠ []) :
    ∀ (i : Nat) (s : List Char) (j : Nat), findCI pat s = some j → i ≤ j →
      findCI pat (s.drop i) = some (j - i) := by
  intro i
  induction i with
  | zero => intro s j h _; simpa using h
  | succ i ih =>
    intro s j h hij
    match s with
    | [] =>
      obtain ⟨p, ps, rfl⟩ : ∃ p ps, pat = p :: ps := by
        cases pat with
        | nil => exact absurd rfl hpat
        | cons p ps => exact ⟨p, ps, rfl⟩
      simp [findCI, startsWithCI] at h
    | c :: cs =>
      rw [findCI] at h
      by_cases hs : startsWithCI pat (c :: cs)
      · simp [hs] at h
        omega
      · simp [hs] at h
        obtain ⟨j0, hj0, rfl⟩ := h
        have : i ≤ j0 := by omega
        have := ih cs j0 hj0 this
        simpa [Nat.succ_sub_succ] using this

theorem searchBetween_eq (openMark closeMark : List Char) (hc : closeMark ≠ [])
    (s : List Char) (i j : Nat)
    (hi : findCI openMark s = some i) (hj : findCI closeMark s = some j)
    (hij : i + openMark.length ≤ j) :
    searchBetween openMark closeMark s =
      some ((s.drop (i + openMark.length)).take (j - (i + openMark.length))) := by
  have h := findCI_drop closeMark hc (i + openMark.length) s j hj hij
  simp [searchBetween, hi, h]

/-- C5: whenever the three bracketed markers occur (case-insensitively) in
order — first `[Story]`, then `[Questions]`, then `[Answers]`, each
occurrence taken at its leftmost position — `parse_comprehension_response`
returns the three whitespace-stripped sections between consecutive markers
(and after `[Answers]`); and when any of the three section patterns fails
to match, it returns `(none, none, none)`. -/
theorem parse_comprehension_response_spec (t : String) :
    (∀ i j k : Nat,
      findCI "[Story]".data t.data = some i →
      findCI "[Questions]".data t.data = some j →
      findCI "[Answers]".data t.data = some k →
      i + 7 ≤ j → j + 11 ≤ k →
      parse_comprehension_response t =
        (some (pyStrip ⟨(t.data.drop (i + 7)).take (j - (i + 7))⟩),
         some (pyStrip ⟨(t.data.drop (j + 11)).take (k - (j + 11))⟩),
         some (pyStrip ⟨t.data.drop (k + 9)⟩))) ∧
    ((searchBetween "[Story]".data "[Questions]".data t.data = none ∨
      searchBetween "[Questions]".data "[Answers]".data t.data = none ∨
      findCI "[Answers]".data t.data = none) →
      parse_comprehension_response t = (none, none, none)) := by
  constructor
  · intro i j k hi hj hk hij hjk
    have h7 : ("[Story]".data).length = 7 := by decide
    have h11 : ("[Questions]".data).length = 11 := by decide
    have h9 : ("[Answers]".data).length = 9 := by decide
    have hq : "[Questions]".data ≠ [] := by decide
    have ha : "[Answers]".data ≠ [] := by decide
    have hstory := searchBetween_eq "[Story]".data "[Questions]".data hq
      t.data i j hi hj (by rw [h7]; omega)
    have hquest := searchBetween_eq "[Questions]".data "[Answers]".data ha
      t.data j k hj hk (by rw [h11]; omega)
    rw [h7] at hstory
    rw [h11] at hquest
    simp [parse_comprehension_response, hstory, hquest, hk, h9]
  · intro h
    rcases h with h | h | h <;> simp [parse_comprehension_response, h]

/-- Witness for C5 at a concrete well-formed response. -/
theorem parse_comprehension_response_spec_witness :
    parse_comprehension_response "[Story]s[Questions]q[Answers]a" =
      (some "s", some "q", some "a") := by
  have h := (parse_comprehension_response_spec "[Story]s[Questions]q[Answers]a").1
    0 8 20 (by decide) (by decide) (by decide) (by decide) (by decide)
  exact h.trans (by decide)

/-- Lazy star `(.*?)` (with `DOTALL`, so any character) followed by the
rest of the pattern `k`: shortest capture first, with full backtracking
into `k`.  Returns the captured characters and the result of `k`. -/
def lazyCapture {α : Type} (k : List Char → Option α) :
    List Char → Option (List Char × α)
  | [] => (k []).map (fun a => ([], a))
  | c :: cs =>
    match k (c :: cs) with
    | some a => some ([], a)
    | none => (lazyCapture k cs).map (fun p => (c :: p.1, p.2))

/-- Greedy `\s*` followed by the rest of the pattern `k`: longest
whitespace run first, backtracking one character at a time. -/
def greedySpaces {α : Type} (k : List Char → Option α) :
    List Char → Option α
  | [] => k []
  | c :: cs =>
    if isPySpace c then
      match greedySpaces k cs with
      | some a => some a
      | none => k (c :: cs)
    else k (c :: cs)

/-- Case-insensitive literal: consume `pat` from the front of the input
(`re.IGNORECASE` literal fragment). -/
def matchLit : List Char → List Char → Option (List Char)
  | [], s => some s
  | _ :: _, [] => none
  | p :: ps, c :: cs => if lowerEqChar p c then matchLit ps cs else none

/-- Field separator `\n\s*LABEL\s*` followed by the rest of the
pattern `k` (the `\n\s*` that closes one field line of the block pattern,
the next field label, and the `\s*` that precedes its capture). -/
def sepTo {α : Type} (label : List Char) (k : List Char → Option α) :
    List Char → Option α
  | '\n' :: rest =>
    greedySpaces (fun s2 =>
      match matchLit label s2 with
      | none => none
      | some s3 => greedySpaces k s3) rest
  | _ => none

/-- Zero-width lookahead `(?=\n\[Reference:|\Z)` closing a block. -/
def endLookahead (s : List Char) : Bool :=
  s.isEmpty || (matchLit "\n[Reference:".data s).isSome

/-- Chain of lazily captured fields: one capture per gap between
consecutive separators from `labels`, the last capture closed by the
end-of-block lookahead.  Returns the captures (one more than there are
labels) and the rest of the input after the match. -/
def captureChain : List (List Char) → List Char →
    Option (List (List Char) × List Char)
  | [], s =>
    (lazyCapture (fun r => if endLookahead r then some r else none) s).map
      (fun p => ([p.1], p.2))
  | l :: ls, s =>
    (lazyCapture (sepTo l (captureChain ls)) s).map
      (fun p => (p.1 :: p.2.1, p.2.2))

/-- The ten regex groups of one matched question block
(src/streamlit_app.py:222), kept unstripped. -/
structure RawBlock where
  ref_index : List Char
  question : List Char
  difficulty : List Char
  topic : List Char
  opt_a : List Char
  opt_b : List Char
  opt_c : List Char
  opt_d : List Char
  answer : List Char
  reasoning : List Char
deriving DecidableEq, Repr

/-- The field labels of the block pattern after `Question:`, in order. -/
def fieldLabels : List (List Char) :=
  ["Difficulty:".data, "Topic:".data, "A)".data, "B)".data, "C)".data,
   "D)".data, "Answer:".data, "Reasoning:".data]

/-- Attempt to match the block pattern
`\[Reference: (\d+)\].*?\n\s*Question:\s*(.*?)\n\s*Difficulty:\s* ...
Reasoning:\s*(.*?)(?=\n\[Reference:|\Z)` (flags `IGNORECASE|DOTALL`) at the
start of `s`; on success return the groups and the rest of the input after
the match end.  The greedy `(\d+)` needs no backtracking because the
following literal is a non-digit.  The catch-all arm for the capture list
is unreachable: `captureChain` always returns one capture per label plus
one. -/
def matchBlockAt (s : List Char) : Option (RawBlock × List Char) :=
  match matchLit "[Reference: ".data s with
  | none => none
  | some s1 =>
    let ds := s1.takeWhile Char.isDigit
    if ds.isEmpty then none
    else
      match s1.drop ds.length with
      | ']' :: s2 =>
        match lazyCapture (sepTo "Question:".data (captureChain fieldLabels)) s2 with
        | none => none
        | some (_, caps, rest) =>
          match caps with
          | [q, d, tp, a, b, c, dd, ans, rs] =>
            some ({ ref_index := ds, question := q, difficulty := d,
                    topic := tp, opt_a := a, opt_b := b, opt_c := c,
                    opt_d := dd, answer := ans, reasoning := rs }, rest)
          | _ => none
      | _ => none

/-- One scanning step of `re.findall`: try the pattern at the current
position; on success emit the match and continue after its end, otherwise
advance one character.  The fuel only bounds the recursion: every step
either consumes one character or consumes the matched block (at least one
character), so `length + 1` fuel is never exhausted first. -/
def scanBlocks : Nat → List Char → List RawBlock
  | 0, _ => []
  | fuel + 1, s =>
    match matchBlockAt s with
    | some (b, rest) => b :: scanBlocks fuel rest
    | none =>
      match s with
      | [] => []
      | _ :: t => scanBlocks fuel t

/-- All non-overlapping leftmost matches of the block pattern
(`pattern.findall(text_blob)` in `parse_generated_questions`). -/
def findBlocks (s : List Char) : List RawBlock := scanBlocks (s.length + 1) s

/-- The options sub-dict of a parsed question. -/
structure Options where
  A : String
  B : String
  C : String
  D : String
deriving DecidableEq, Repr

/-- A typed question record as built by `parse_generated_questions`
(src/streamlit_app.py:259): every field is the corresponding regex group
with surrounding whitespace stripped. -/
structure QuestionObj where
  question : String
  difficulty : String
  topic : String
  options : Options
  reference_index : String
  answer : String
  reasoning : String
deriving DecidableEq, Repr

/-- The duplicate-detection key of a stored record: question, the four
options and the reasoning, joined with bar characters. -/
def contentKey (q : QuestionObj) : String :=
  q.question ++ "|" ++ q.options.A ++ "|" ++ q.options.B ++ "|" ++
    q.options.C ++ "|" ++ q.options.D ++ "|" ++ q.reasoning

/-- The record built from one matched block: each group stripped. -/
def mkQuestionObj (b : RawBlock) : QuestionObj :=
  { question := pyStrip ⟨b.question⟩
    difficulty := pyStrip ⟨b.difficulty⟩
    topic := pyStrip ⟨b.topic⟩
    options := { A := pyStrip ⟨b.opt_a⟩, B := pyStrip ⟨b.opt_b⟩,
                 C := pyStrip ⟨b.opt_c⟩, D := pyStrip ⟨b.opt_d⟩ }
    reference_index := pyStrip ⟨b.ref_index⟩
    answer := pyStrip ⟨b.answer⟩
    reasoning := pyStrip ⟨b.reasoning⟩ }

/-- The content key computed for a freshly matched block (the Python code
builds it from the stripped groups, which are exactly the record's
fields). -/
def blockKey (b : RawBlock) : String := contentKey (mkQuestionObj b)

/-- Number of newline characters in the raw reasoning group
(`reasoning.count chr10` in the Python source). -/
def countNewlines (s : List Char) : Nat :=
  (s.filter (fun c => c == '\n')).length

/-- The per-match loop body of `parse_generated_questions`: skip a block
whose raw reasoning has step count (newlines + 1) above 20, skip a block
whose content key was already seen, otherwise record the key and emit the
stripped record. -/
def processBlocks : List RawBlock → List String → List QuestionObj
  | [], _ => []
  | b :: rest, seen =>
    if countNewlines b.reasoning + 1 > 20 then processBlocks rest seen
    else if blockKey b ∈ seen then processBlocks rest seen
    else mkQuestionObj b :: processBlocks rest (blockKey b :: seen)

/-- Embedding of `parse_generated_questions` (src/streamlit_app.py:215).
The seen-set is seeded with the content keys of `questions_list_so_far`;
an empty match list returns the empty list (after a UI warning). -/
def parse_generated_questions (text_blob : String)
    (questions_list_so_far : List QuestionObj) : List QuestionObj :=
  if (findBlocks text_blob.data).isEmpty then []
  else processBlocks (findBlocks text_blob.data)
    (questions_list_so_far.map contentKey)

/-- Configuration constant (src/streamlit_app.py:15). -/
def QUESTIONS_TO_SELECT : Nat := 50

/-- Configuration constant (src/streamlit_app.py:16). -/
def MAX_RETRIES : Nat := 5

/-- Data recorded about one generation attempt (one external API call):
the number of questions already collected when it starts, the shortfall
`questions_needed`, the sampled reference subset, and whether the API call
returned text. -/
structure AttemptInfo where
  collectedBefore : Nat
  needed : Nat
  subset : List String
  ok : Bool
deriving DecidableEq

/-- Result of the generation loop: the list returned to the caller, the
session-wide `all_generated_questions` after the run, and the trace of
attempts made. -/
structure LoopResult where
  final : List QuestionObj
  allGen : List QuestionObj
  trace : List AttemptInfo

/-- The `while` loop of `process_generation_loop`
(src/streamlit_app.py:279).  The external world is two parameters:
`sample k n` is the reference subset drawn by `questions_series.sample(n)`
on attempt `k`, and `api k` is the text of the model response on attempt
`k` (`none` models the failure path of `call_gemini_api`).  On a failed
call the loop breaks before `retries_used` is incremented; on a successful
call the parsed questions are appended and `retries_used` increments. -/
def genLoopAux (sample : Nat → Nat → List String) (api : Nat → Option String)
    (series : List String) (num : Nat) :
    List QuestionObj → List QuestionObj → Nat → LoopResult := fun final allGen retries =>
  if h : final.length < num ∧ retries < MAX_RETRIES then
    have _hlt : retries < MAX_RETRIES := h.2
    let needed := num - final.length
    let subset := sample retries
      (min QUESTIONS_TO_SELECT (min (needed * 5) series.length))
    match api retries with
    | none =>
      { final := final, allGen := allGen,
        trace := [{ collectedBefore := final.length, needed := needed,
                    subset := subset, ok := false }] }
    | some text =>
      let newly := parse_generated_questions text allGen
      let res := genLoopAux sample api series num (final ++ newly)
        (allGen ++ newly) (retries + 1)
      { final := res.final, allGen := res.allGen,
        trace := { collectedBefore := final.length, needed := needed,
                   subset := subset, ok := true } :: res.trace }
  else
    { final := final, allGen := allGen, trace := [] }
termination_by _final _allGen retries => MAX_RETRIES - retries
decreasing_by omega

/-- Embedding of `process_generation_loop` (src/streamlit_app.py:272):
`loaded` is the result of `load_and_select_questions` (`none` returns `[]`
with no attempt), `allGen` the session list on entry. -/
def process_generation_loop (sample : Nat → Nat → List String)
    (api : Nat → Option String) (loaded : Option (List String)) (num : Nat)
    (allGen : List QuestionObj) : LoopResult :=
  match loaded with
  | none => { final := [], allGen := allGen, trace := [] }
  | some series => genLoopAux sample api series num [] allGen 0

/-- The required-column content of the frame returned by `pd.read_excel`:
whether the column `QUESTION_COLUMN_NAME` exists and, when it does, its
cells (`none` models a NaN cell, removed by `dropna`). -/
structure DataFrameCol where
  hasColumn : Bool
  col : List (Option String)

/-- Embedding of `load_and_select_questions` (src/streamlit_app.py:37).
`readResult = none` models `pd.read_excel` raising (file not found or any
other error); `sampleRows` is the randomness of `df.sample`, a
permutation of the non-null rows of which the first `n` are drawn. -/
def load_and_select_questions (readResult : Option DataFrameCol)
    (num_questions : Nat) (sampleRows : List String → List String) :
    Option (List String) :=
  match readResult with
  | none => none
  | some df =>
    if df.hasColumn = false then none
    else
      let nonNull := df.col.filterMap id
      if nonNull.length = 0 then none
      else
        let n := if nonNull.length < num_questions then nonNull.length
                 else num_questions
        some ((sampleRows nonNull).take n)

/-- Python indexing `l[i]` for `int` indices (negative indices count from
the end; out-of-range raises, modelled as `none`). -/
def pyIndex {α : Type} (l : List α) (i : Int) : Option α :=
  if 0 ≤ i then l.get? i.toNat
  else if (-i).toNat ≤ l.length then l.get? (l.length - (-i).toNat)
  else none

/-- Session navigation state touched by the display helpers. -/
structure NavState where
  current_index : Int
  answer_checked : Bool
deriving DecidableEq, Repr

/-- Embedding of `next_q` (src/streamlit_app.py:310). -/
def next_q (st : NavState) : NavState :=
  { current_index := st.current_index + 1, answer_checked := false }

/-- Embedding of `prev_q` (src/streamlit_app.py:314). -/
def prev_q (st : NavState) : NavState :=
  if st.current_index > 0 then
    { current_index := st.current_index - 1, answer_checked := false }
  else st

/-- The safety check opening `display_mcq_session`
(src/streamlit_app.py:328): an index not below the list length is reset
to 0. -/
def clampIndex (idx : Int) (total : Nat) : Int :=
  if idx ≥ (total : Int) then 0 else idx

/-- The unique item rendered in one rerun:
`generated_list[current_index]` after the safety check. -/
def displayedItem (l : List QuestionObj) (idx : Int) : Option QuestionObj :=
  pyIndex l (clampIndex idx l.length)

/-- Guard under which the Next button is rendered
(`current_q_index < total_count - 1`). -/
def nextOffered (idx : Int) (total : Nat) : Bool :=
  idx < (total : Int) - 1

/-- Guard under which the Prev button is rendered
(`current_q_index > 0`). -/
def prevOffered (idx : Int) : Bool := idx > 0

/-- First occurrence of an option letter in the stored answer
(`re.search` of the class A/B/C/D, case-sensitive, in
`display_mcq_session`). -/
def findCorrectLetter (answer : String) : Option Char :=
  answer.data.find? (fun c => c == 'A' || c == 'B' || c == 'C' || c == 'D')

/-- The letter shown as the correct one; a question mark when the answer
field contains no option letter. -/
def correctLetter (answer : String) : Char :=
  (findCorrectLetter answer).getD '?'

/-- The four radio option strings built for the current item. -/
def radioOptions (o : Options) : List String :=
  ["A) " ++ o.A, "B) " ++ o.B, "C) " ++ o.C, "D) " ++ o.D]

/-- First character of the selected option string
(`selected_option[0]`). -/
def userLetter (selected : String) : Option Char := selected.data.head?

/-- Feedback outcome after Check Answer with a selection: `true` renders
the Correct banner (`user_letter == correct_letter`). -/
def feedbackCorrect (selected : String) (item : QuestionObj) : Bool :=
  match userLetter selected with
  | some c => c == correctLetter item.answer
  | none => false

theorem genLoopAux_trace_length_le (sample : Nat → Nat → List String)
    (api : Nat → Option String) (series : List String) (num : Nat) :
    ∀ (fuel : Nat) (final allGen : List QuestionObj) (retries : Nat),
      MAX_RETRIES ≤ retries + fuel →
      (genLoopAux sample api series num final allGen retries).trace.length ≤
        fuel := by
  intro fuel
  induction fuel with
  | zero =>
    intro final allGen retries hr
    rw [genLoopAux]
    have hng : ¬ (final.length < num ∧ retries < MAX_RETRIES) := by omega
    simp [hng]
  | succ fuel ih =>
    intro final allGen retries hr
    rw [genLoopAux]
    by_cases hg : final.length < num ∧ retries < MAX_RETRIES
    · simp only [hg, dif_pos]
      cases hapi : api retries with
      | none => simp
      | some text =>
        have hrec := ih (final ++ parse_generated_questions text allGen)
          (allGen ++ parse_generated_questions text allGen) (retries + 1)
          (by omega)
        simp [hapi]
        omega
    · simp [hg]

/-- C2: the generation loop performs at most `MAX_RETRIES = 5` attempts
(hence at most five external API calls) for every behaviour of the API,
the sampler, the loaded reference list and the requested count; the loop
is a total function, so it always terminates. -/
theorem process_generation_loop_attempts_le (sample : Nat → Nat → List String)
    (api : Nat → Option String) (loaded : Option (List String)) (num : Nat)
    (allGen : List QuestionObj) :
    (process_generation_loop sample api loaded num allGen).trace.length ≤
      MAX_RETRIES ∧ MAX_RETRIES = 5 := by
  refine ⟨?_, rfl⟩
  cases loaded with
  | none => simp [process_generation_loop]
  | some series =>
    simpa [process_generation_loop] using
      genLoopAux_trace_length_le sample api series num MAX_RETRIES [] allGen 0
        (by omega)

theorem genLoopAux_mem_trace (sample : Nat → Nat → List String)
    (api : Nat → Option String) (series : List String) (num : Nat) :
    ∀ (fuel : Nat) (final allGen : List QuestionObj) (retries : Nat),
      MAX_RETRIES ≤ retries + fuel →
      ∀ info ∈ (genLoopAux sample api series num final allGen retries).trace,
        info.collectedBefore < num ∧
        info.needed = num - info.collectedBefore ∧
        ∃ k, info.subset =
          sample k (min QUESTIONS_TO_SELECT
            (min (info.needed * 5) series.length)) := by
  intro fuel
  induction fuel with
  | zero =>
    intro final allGen retries hr
    rw [genLoopAux]
    have hng : ¬ (final.length < num ∧ retries < MAX_RETRIES) := by omega
    simp [hng]
  | succ fuel ih =>
    intro final allGen retries hr
    rw [genLoopAux]
    by_cases hg : final.length < num ∧ retries < MAX_RETRIES
    · simp only [hg, dif_pos]
      cases hapi : api retries with
      | none =>
        intro info hinfo
        simp at hinfo
        subst hinfo
        exact ⟨hg.1, rfl, retries, rfl⟩
      | some text =>
        intro info hinfo
        simp [hapi] at hinfo
        rcases hinfo with hinfo | hinfo
        · subst hinfo
          exact ⟨hg.1, rfl, retries, rfl⟩
        · exact ih (final ++ parse_generated_questions text allGen)
            (allGen ++ parse_generated_questions text allGen) (retries + 1)
            (by omega) info hinfo
    · simp [hg]

theorem genLoopAux_fail_is_last (sample : Nat → Nat → List String)
    (api : Nat → Option String) (series : List String) (num : Nat) :
    ∀ (fuel : Nat) (final allGen : List QuestionObj) (retries : Nat),
      MAX_RETRIES ≤ retries + fuel →
      ∀ (k : Nat) (info : AttemptInfo),
        (genLoopAux sample api series num final allGen retries).trace[k]? =
          some info → info.ok = false →
        (genLoopAux sample api series num final allGen retries).trace.length =
          k + 1 := by
  intro fuel
  induction fuel with
  | zero =>
    intro final allGen retries hr k info hget _
    rw [genLoopAux] at hget ⊢
    have hng : ¬ (final.length < num ∧ retries < MAX_RETRIES) := by omega
    simp [hng] at hget
  | succ fuel ih =>
    intro final allGen retries hr k info hget hok
    rw [genLoopAux] at hget ⊢
    by_cases hg : final.length < num ∧ retries < MAX_RETRIES
    · simp only [hg, dif_pos] at hget ⊢
      cases hapi : api retries with
      | none =>
        simp [hapi] at hget ⊢
        match k, hget with
        | 0, hget => rfl
        | k + 1, hget => simp at hget
      | some text =>
        simp only [hapi] at hget ⊢
        match k, hget with
        | 0, hget =>
          simp at hget
          rw [← hget] at hok
          simp at hok
        | k + 1, hget =>
          simp at hget
          have := ih (final ++ parse_generated_questions text allGen)
            (allGen ++ parse_generated_questions text allGen) (retries + 1)
            (by omega) k info hget hok
          simp [this]
    · simp [hg] at hget

theorem genLoopAux_stop_reason (sample : Nat → Nat → List String)
    (api : Nat → Option String) (series : List String) (num : Nat) :
    ∀ (fuel : Nat) (final allGen : List QuestionObj) (retries : Nat),
      MAX_RETRIES = retries + fuel →
      num ≤ (genLoopAux sample api series num final allGen retries).final.length ∨
      (genLoopAux sample api series num final allGen retries).trace.length = fuel ∨
      (∃ (k : Nat) (info : AttemptInfo),
        (genLoopAux sample api series num final allGen retries).trace[k]? =
          some info ∧ info.ok = false ∧
        (genLoopAux sample api series num final allGen retries).trace.length =
          k + 1) := by
  intro fuel
  induction fuel with
  | zero =>
    intro final allGen retries hr
    rw [genLoopAux]
    have hng : ¬ (final.length < num ∧ retries < MAX_RETRIES) := by omega
    simp [hng]
  | succ fuel ih =>
    intro final allGen retries hr
    rw [genLoopAux]
    by_cases hg : final.length < num ∧ retries < MAX_RETRIES
    · simp only [hg, dif_pos]
      cases hapi : api retries with
      | none =>
        right; right
        refine ⟨0, ⟨final.length, num - final.length,
          sample retries (min QUESTIONS_TO_SELECT
            (min ((num - final.length) * 5) series.length)), false⟩,
          by simp, rfl, by simp⟩
      | some text =>
        have hrec := ih (final ++ parse_generated_questions text allGen)
          (allGen ++ parse_generated_questions text allGen) (retries + 1)
          (by omega)
        rcases hrec with hrec | hrec | hrec
        · left; simpa using hrec
        · right; left; simpa using hrec
        · right; right
          obtain ⟨k, info, h1, h2, h3⟩ := hrec
          exact ⟨k + 1, info, by simpa using h1, h2, by simpa using h3⟩
    · rcases not_and_or.mp hg with hng | hng
      · left; simp [hg]; omega
      · right; left
        have : fuel + 1 = 0 := by omega
        omega

/-- C3: every issued attempt starts with fewer collected questions than
requested, within the `MAX_RETRIES` budget, and with every earlier
attempt's API call successful; an attempt whose API call returns no text
is the last one (the loop stops immediately); and a run can only stop by
reaching the requested count, exhausting the budget, or such a failed
call. -/
theorem process_generation_loop_attempt_policy
    (sample : Nat → Nat → List String) (api : Nat → Option String)
    (series : List String) (num : Nat) (allGen : List QuestionObj) :
    (∀ (k : Nat) (info : AttemptInfo),
      (process_generation_loop sample api (some series) num allGen).trace[k]? =
        some info →
      info.collectedBefore < num ∧ k < MAX_RETRIES ∧
      ∀ (j : Nat) (info2 : AttemptInfo), j < k →
        (process_generation_loop sample api (some series) num allGen).trace[j]? =
          some info2 → info2.ok = true) ∧
    (∀ (k : Nat) (info : AttemptInfo),
      (process_generation_loop sample api (some series) num allGen).trace[k]? =
        some info → info.ok = false →
      (process_generation_loop sample api (some series) num allGen).trace.length =
        k + 1) ∧
    (num ≤ (process_generation_loop sample api (some series) num allGen).final.length ∨
     (process_generation_loop sample api (some series) num allGen).trace.length =
       MAX_RETRIES ∨
     (∃ (k : Nat) (info : AttemptInfo),
       (process_generation_loop sample api (some series) num allGen).trace[k]? =
         some info ∧ info.ok = false ∧
       (process_generation_loop sample api (some series) num allGen).trace.length =
         k + 1)) := by
  have hunf : process_generation_loop sample api (some series) num allGen =
      genLoopAux sample api series num [] allGen 0 := rfl
  have hfail := genLoopAux_fail_is_last sample api series num MAX_RETRIES
    [] allGen 0 (by omega)
  have hlen := genLoopAux_trace_length_le sample api series num MAX_RETRIES
    [] allGen 0 (by omega)
  refine ⟨?_, ?_, ?_⟩
  · intro k info hget
    rw [hunf] at hget
    obtain ⟨hk, helem⟩ := List.getElem?_eq_some.mp hget
    have hmem : info ∈ (genLoopAux sample api series num [] allGen 0).trace := by
      rw [← helem]; exact List.getElem_mem hk
    have h1 := genLoopAux_mem_trace sample api series num MAX_RETRIES
      [] allGen 0 (by omega) info hmem
    refine ⟨h1.1, by rw [hunf] at *; omega, ?_⟩
    intro j info2 hj hget2
    rw [hunf] at hget2
    cases hok : info2.ok with
    | true => rfl
    | false =>
      have := hfail j info2 hget2 hok
      obtain ⟨hk2, _⟩ := List.getElem?_eq_some.mp hget
      omega
  · intro k info hget hok
    rw [hunf] at hget ⊢
    exact hfail k info hget hok
  · have := genLoopAux_stop_reason sample api series num MAX_RETRIES
      [] allGen 0 (by omega)
    rw [hunf]
    exact this

/-- Witness for C3: with an API that always fails, the single failed
attempt is the last one. -/
theorem process_generation_loop_attempt_policy_witness :
    (process_generation_loop (fun _ _ => []) (fun _ => none)
      (some ["x"]) 1 []).trace.length = 0 + 1 := by
  refine (process_generation_loop_attempt_policy (fun _ _ => [])
    (fun _ => none) ["x"] 1 []).2.1 0 ⟨0, 1, [], false⟩ ?_ rfl
  show (genLoopAux (fun _ _ => []) (fun _ => none) ["x"] 1 [] [] 0).trace[0]? =
    some ⟨0, 1, [], false⟩
  rw [genLoopAux]
  simp [MAX_RETRIES]

/-- C10: every attempt of the generation loop samples a reference subset
of exactly `min(QUESTIONS_TO_SELECT, 5 * questions_needed, len(series))`
elements, where `questions_needed` is the current shortfall; hence no
prompt embeds more than 50 reference questions nor more than five times
the shortfall.  The hypothesis states that `Series.sample(n)` draws
exactly `n` rows whenever `n` does not exceed the series length. -/
theorem process_generation_loop_reference_subset
    (sample : Nat → Nat → List String) (api : Nat → Option String)
    (series : List String) (num : Nat) (allGen : List QuestionObj)
    (hsample : ∀ k n, n ≤ series.length → (sample k n).length = n) :
    ∀ info ∈ (process_generation_loop sample api (some series) num allGen).trace,
      info.subset.length =
        min QUESTIONS_TO_SELECT (min (info.needed * 5) series.length) ∧
      info.needed = num - info.collectedBefore ∧
      info.subset.length ≤ QUESTIONS_TO_SELECT ∧
      info.subset.length ≤ 5 * info.needed := by
  intro info hinfo
  have hmem : info ∈ (genLoopAux sample api series num [] allGen 0).trace := hinfo
  have h := genLoopAux_mem_trace sample api series num MAX_RETRIES
    [] allGen 0 (by omega) info hmem
  obtain ⟨h1, h2, k, hsub⟩ := h
  have hle : min QUESTIONS_TO_SELECT (min (info.needed * 5) series.length) ≤
      series.length :=
    le_trans (min_le_right _ _) (min_le_right _ _)
  have hlen := hsample k _ hle
  rw [hsub, hlen]
  refine ⟨rfl, h2, min_le_left _ _, ?_⟩
  have : min QUESTIONS_TO_SELECT (min (info.needed * 5) series.length) ≤
      info.needed * 5 :=
    le_trans (min_le_right _ _) (min_le_left _ _)
  omega

/-- Witness for C10: one attempt with one loaded reference question and a
shortfall of one samples exactly `min 50 (min 5 1) = 1` reference row. -/
theorem process_generation_loop_reference_subset_witness :
    (["r0"] : List String).length =
      min QUESTIONS_TO_SELECT (min (1 * 5) (["x"] : List String).length) ∧
    (1 : Nat) = 1 - 0 ∧
    (["r0"] : List String).length ≤ QUESTIONS_TO_SELECT ∧
    (["r0"] : List String).length ≤ 5 * 1 := by
  have hmem : (⟨0, 1, ["r0"], false⟩ : AttemptInfo) ∈
      (process_generation_loop (fun _ n => List.replicate n "r0")
        (fun _ => none) (some ["x"]) 1 []).trace := by
    show (⟨0, 1, ["r0"], false⟩ : AttemptInfo) ∈
      (genLoopAux (fun _ n => List.replicate n "r0") (fun _ => none)
        ["x"] 1 [] [] 0).trace
    rw [genLoopAux]
    simp [MAX_RETRIES, QUESTIONS_TO_SELECT, Nat.min_def]
  have h := process_generation_loop_reference_subset
    (fun _ n => List.replicate n "r0") (fun _ => none) ["x"] 1 []
    (by intro k n hn; simp) ⟨0, 1, ["r0"], false⟩ hmem
  simpa using h

/-- C4: the loader returns `none` (after an error message) exactly when
the Excel read raises, the required column is absent, or the column holds
no non-null entry; in every other case it returns a sample of
`min(requested, available)` rows drawn from the non-null column.  The
hypothesis states that `df.sample` permutes the rows (its randomness). -/
theorem load_and_select_questions_spec (readResult : Option DataFrameCol)
    (num_questions : Nat) (sampleRows : List String → List String)
    (hperm : ∀ l, (sampleRows l).Perm l) :
    (load_and_select_questions readResult num_questions sampleRows = none ↔
      readResult = none ∨ ∃ df, readResult = some df ∧
        (df.hasColumn = false ∨ df.col.filterMap id = [])) ∧
    (∀ df, readResult = some df → df.hasColumn = true →
      df.col.filterMap id ≠ [] →
      ∃ xs, load_and_select_questions readResult num_questions sampleRows =
          some xs ∧
        xs.length = min num_questions (df.col.filterMap id).length ∧
        ∀ x ∈ xs, x ∈ df.col.filterMap id) := by
  have hbody : ∀ df : DataFrameCol,
      load_and_select_questions (some df) num_questions sampleRows =
        (if df.hasColumn = false then none
         else if (df.col.filterMap id).length = 0 then none
         else some ((sampleRows (df.col.filterMap id)).take
           (if (df.col.filterMap id).length < num_questions then
             (df.col.filterMap id).length else num_questions))) :=
    fun _ => rfl
  constructor
  · cases readResult with
    | none => simp [load_and_select_questions]
    | some df =>
      rw [hbody df]
      by_cases hcol : df.hasColumn = false
      · rw [if_pos hcol]
        constructor
        · intro _; exact Or.inr ⟨df, rfl, Or.inl hcol⟩
        · intro _; rfl
      · rw [if_neg hcol]
        by_cases hempty : (df.col.filterMap id).length = 0
        · rw [if_pos hempty]
          constructor
          · intro _
            exact Or.inr ⟨df, rfl, Or.inr (List.length_eq_zero.mp hempty)⟩
          · intro _; rfl
        · rw [if_neg hempty]
          constructor
          · intro h; exact absurd h (by simp)
          · intro h
            rcases h with h | ⟨df2, hdf2, hcase⟩
            · exact absurd h (by simp)
            · injection hdf2 with hdf2
              subst hdf2
              rcases hcase with hcase | hcase
              · exact absurd hcase hcol
              · exact absurd (congrArg List.length hcase) hempty
  · intro df hdf hcol hne
    subst hdf
    have hempty : ¬ (df.col.filterMap id).length = 0 := by
      intro h
      exact hne (List.length_eq_zero.mp h)
    refine ⟨((sampleRows (df.col.filterMap id)).take
      (if (df.col.filterMap id).length < num_questions then
        (df.col.filterMap id).length else num_questions)), ?_, ?_, ?_⟩
    · rw [hbody df, if_neg (by simp [hcol]), if_neg hempty]
    · have hlen : (sampleRows (df.col.filterMap id)).length =
        (df.col.filterMap id).length := (hperm _).length_eq
      rw [List.length_take, hlen]
      rcases Nat.lt_or_ge (df.col.filterMap id).length num_questions with h | h
      · rw [if_pos h, Nat.min_self, Nat.min_def]
        split_ifs <;> omega
      · have hnlt : ¬ (df.col.filterMap id).length < num_questions := by omega
        rw [if_neg hnlt]
    · intro x hx
      have hx2 : x ∈ sampleRows (df.col.filterMap id) :=
        List.take_subset _ _ hx
      exact ((hperm _).mem_iff).mp hx2

/-- Witness for C4: a readable frame with the column present and two
non-null rows, sampled by the identity permutation. -/
theorem load_and_select_questions_spec_witness :
    ∃ xs, load_and_select_questions
        (some ⟨true, [some "a", none, some "b"]⟩) 5 id = some xs ∧
      xs.length =
        min 5 (([some "a", none, some "b"] : List (Option String)).filterMap
          id).length ∧
      ∀ x ∈ xs,
        x ∈ ([some "a", none, some "b"] : List (Option String)).filterMap id := by
  exact (load_and_select_questions_spec (some ⟨true, [some "a", none, some "b"]⟩)
    5 id (fun l => List.Perm.refl l)).2 ⟨true, [some "a", none, some "b"]⟩
    rfl rfl (by decide)

theorem parse_generated_questions_eq (t : String) (sofar : List QuestionObj) :
    parse_generated_questions t sofar =
      processBlocks (findBlocks t.data) (sofar.map contentKey) := by
  rw [parse_generated_questions]
  by_cases h : (findBlocks t.data).isEmpty
  · rw [if_pos h, List.isEmpty_iff.mp h]
    rfl
  · rw [if_neg h]

theorem processBlocks_mem (bs : List RawBlock) :
    ∀ (seen : List String), ∀ r ∈ processBlocks bs seen,
      ∃ b ∈ bs, r = mkQuestionObj b ∧ countNewlines b.reasoning + 1 ≤ 20 := by
  induction bs with
  | nil => intro seen r hr; simp [processBlocks] at hr
  | cons b rest ih =>
    intro seen r hr
    simp only [processBlocks] at hr
    by_cases h20 : countNewlines b.reasoning + 1 > 20
    · rw [if_pos h20] at hr
      obtain ⟨b2, hb2, hrest⟩ := ih seen r hr
      exact ⟨b2, List.mem_cons_of_mem _ hb2, hrest⟩
    · rw [if_neg h20] at hr
      by_cases hdup : blockKey b ∈ seen
      · rw [if_pos hdup] at hr
        obtain ⟨b2, hb2, hrest⟩ := ih seen r hr
        exact ⟨b2, List.mem_cons_of_mem _ hb2, hrest⟩
      · rw [if_neg hdup] at hr
        rcases List.mem_cons.mp hr with hr | hr
        · exact ⟨b, List.mem_cons_self _ _, hr, by omega⟩
        · obtain ⟨b2, hb2, hrest⟩ := ih _ r hr
          exact ⟨b2, List.mem_cons_of_mem _ hb2, hrest⟩

theorem processBlocks_length_le (bs : List RawBlock) :
    ∀ (seen : List String), (processBlocks bs seen).length ≤ bs.length := by
  induction bs with
  | nil => intro seen; simp [processBlocks]
  | cons b rest ih =>
    intro seen
    simp only [processBlocks]
    split_ifs
    · exact le_trans (ih seen) (by simp)
    · exact le_trans (ih seen) (by simp)
    · simpa using ih (blockKey b :: seen)

theorem processBlocks_key_not_seen (bs : List RawBlock) :
    ∀ (seen : List String), ∀ r ∈ processBlocks bs seen,
      contentKey r ∉ seen := by
  induction bs with
  | nil => intro seen r hr; simp [processBlocks] at hr
  | cons b rest ih =>
    intro seen r hr
    simp only [processBlocks] at hr
    split_ifs at hr with h20 hdup
    · exact ih seen r hr
    · exact ih seen r hr
    · rcases List.mem_cons.mp hr with hr | hr
      · subst hr; exact hdup
      · intro hmem
        exact ih _ r hr (List.mem_cons_of_mem _ hmem)

theorem processBlocks_pairwise (bs : List RawBlock) :
    ∀ (seen : List String),
      (processBlocks bs seen).Pairwise
        (fun a b => contentKey a ≠ contentKey b) := by
  induction bs with
  | nil => intro seen; simp [processBlocks]
  | cons b rest ih =>
    intro seen
    simp only [processBlocks]
    split_ifs with h20 hdup
    · exact ih seen
    · exact ih seen
    · refine List.Pairwise.cons ?_ (ih _)
      intro r hr heq
      exact processBlocks_key_not_seen rest _ r hr
        (heq ▸ List.mem_cons_self _ _)

theorem countNewlines_dropWhile_le (p : Char → Bool) (s : List Char) :
    countNewlines (s.dropWhile p) ≤ countNewlines s :=
  List.Sublist.length_le ((List.dropWhile_sublist _).filter _)

theorem countNewlines_reverse (s : List Char) :
    countNewlines s.reverse = countNewlines s := by
  unfold countNewlines
  rw [List.filter_reverse, List.length_reverse]

theorem countNewlines_pyStrip_le (s : List Char) :
    countNewlines (pyStripList s) ≤ countNewlines s := by
  unfold pyStripList
  calc countNewlines (((s.dropWhile isPySpace).reverse.dropWhile
        isPySpace).reverse)
      = countNewlines ((s.dropWhile isPySpace).reverse.dropWhile isPySpace) :=
        countNewlines_reverse _
    _ ≤ countNewlines (s.dropWhile isPySpace).reverse :=
        countNewlines_dropWhile_le _ _
    _ = countNewlines (s.dropWhile isPySpace) := countNewlines_reverse _
    _ ≤ countNewlines s := countNewlines_dropWhile_le _ _

theorem processBlocks_complete (bs : List RawBlock) :
    ∀ (seen : List String), ∀ b ∈ bs,
      countNewlines b.reasoning + 1 ≤ 20 →
      blockKey b ∉ seen →
      ∃ r ∈ processBlocks bs seen, contentKey r = blockKey b := by
  induction bs with
  | nil => intro seen b hb; simp at hb
  | cons hd rest ih =>
    intro seen b hb h20 hfresh
    simp only [processBlocks]
    rcases List.mem_cons.mp hb with rfl | hb
    · rw [if_neg (by omega), if_neg hfresh]
      exact ⟨mkQuestionObj b, List.mem_cons_self _ _, rfl⟩
    · by_cases hhd20 : countNewlines hd.reasoning + 1 > 20
      · rw [if_pos hhd20]
        exact ih seen b hb h20 hfresh
      · rw [if_neg hhd20]
        by_cases hdup : blockKey hd ∈ seen
        · rw [if_pos hdup]
          exact ih seen b hb h20 hfresh
        · rw [if_neg hdup]
          by_cases hkey : blockKey b = blockKey hd
          · exact ⟨mkQuestionObj hd, List.mem_cons_self _ _, hkey.symm⟩
          · have hfresh2 : blockKey b ∉ blockKey hd :: seen := by
              intro hmem
              rcases List.mem_cons.mp hmem with h | h
              · exact hkey h
              · exact hfresh h
            obtain ⟨r, hr, hkr⟩ := ih (blockKey hd :: seen) b hb h20 hfresh2
            exact ⟨r, List.mem_cons_of_mem _ hr, hkr⟩

/-- C1 counterexample: each of these two response texts contains exactly
one correctly formatted question block, yet `parse_generated_questions`
returns no record for it: in the first text the block's content key was
already collected (the duplicate filter), in the second the block's
reasoning capture holds 20 newlines, a step count of 21 (the
reasoning-length filter) — so the function does not return one record per
regex-matched block. -/
theorem parse_generated_questions_one_per_block_refuted :
    ((findBlocks ("[Reference: 0]\nQuestion: q\nDifficulty: d\nTopic: t\nA) a\nB) b\nC) c\nD) dd\nAnswer: A\nReasoning: r").data).length = 1 ∧
     parse_generated_questions
       "[Reference: 0]\nQuestion: q\nDifficulty: d\nTopic: t\nA) a\nB) b\nC) c\nD) dd\nAnswer: A\nReasoning: r"
       [⟨"q", "d", "t", ⟨"a", "b", "c", "dd"⟩, "0", "A", "r"⟩] = []) ∧
    ((findBlocks ("[Reference: 0]\nQuestion: q\nDifficulty: d\nTopic: t\nA) a\nB) b\nC) c\nD) dd\nAnswer: A\nReasoning: r" ++
        String.mk (List.replicate 20 (Char.ofNat 10))).data).length = 1 ∧
     parse_generated_questions
       ("[Reference: 0]\nQuestion: q\nDifficulty: d\nTopic: t\nA) a\nB) b\nC) c\nD) dd\nAnswer: A\nReasoning: r" ++
        String.mk (List.replicate 20 (Char.ofNat 10))) [] = []) := by
  decide

/-- C1 (amended): `parse_generated_questions` returns one record per
regex-matched `[Reference: n]` block except the blocks its two filters
drop.  Soundness: every returned record is the record of a matched block
— each field the corresponding captured group with surrounding whitespace
stripped — whose reasoning capture has step count at most 20 and whose
content key is absent from `questions_list_so_far`.  Completeness: every
matched block passing the reasoning filter whose content key is not
already collected is represented in the output by a record carrying its
content key.  Returned content keys are pairwise distinct (one record per
key), at most one record arises per matched block, and when the text
contains no correctly formatted block the result is the empty list. -/
theorem parse_generated_questions_records (t : String)
    (sofar : List QuestionObj) :
    (∀ r ∈ parse_generated_questions t sofar,
      ∃ b ∈ findBlocks t.data, r = mkQuestionObj b ∧
        countNewlines b.reasoning + 1 ≤ 20 ∧
        contentKey r ∉ sofar.map contentKey) ∧
    (∀ b ∈ findBlocks t.data,
      countNewlines b.reasoning + 1 ≤ 20 →
      blockKey b ∉ sofar.map contentKey →
      ∃ r ∈ parse_generated_questions t sofar,
        contentKey r = blockKey b) ∧
    (parse_generated_questions t sofar).Pairwise
      (fun a b => contentKey a ≠ contentKey b) ∧
    (parse_generated_questions t sofar).length ≤ (findBlocks t.data).length ∧
    (findBlocks t.data = [] → parse_generated_questions t sofar = []) := by
  refine ⟨?_, ?_, ?_, ?_, ?_⟩
  · intro r hr
    rw [parse_generated_questions_eq] at hr
    obtain ⟨b, hb, hr2, h20⟩ := processBlocks_mem _ _ r hr
    have hnot := processBlocks_key_not_seen _ _ r hr
    exact ⟨b, hb, hr2, h20, hnot⟩
  · intro b hb h20 hfresh
    rw [parse_generated_questions_eq]
    exact processBlocks_complete _ _ b hb h20 hfresh
  · rw [parse_generated_questions_eq]
    exact processBlocks_pairwise _ _
  · rw [parse_generated_questions_eq]
    exact processBlocks_length_le _ _
  · intro h
    rw [parse_generated_questions_eq, h]
    rfl

/-- Witness for C1 (amended): a fresh well-formed block is represented in
the output by a record carrying its content key. -/
theorem parse_generated_questions_records_witness :
    ∃ r ∈ parse_generated_questions
      "[Reference: 0]\nQuestion: q\nDifficulty: d\nTopic: t\nA) a\nB) b\nC) c\nD) dd\nAnswer: A\nReasoning: r" [],
      contentKey r = blockKey ⟨"0".data, "q".data, "d".data, "t".data,
        "a".data, "b".data, "c".data, "dd".data, "A".data, "r".data⟩ :=
  (parse_generated_questions_records
    "[Reference: 0]\nQuestion: q\nDifficulty: d\nTopic: t\nA) a\nB) b\nC) c\nD) dd\nAnswer: A\nReasoning: r" []).2.1
    ⟨"0".data, "q".data, "d".data, "t".data, "a".data, "b".data, "c".data,
      "dd".data, "A".data, "r".data⟩ (by decide) (by decide) (by decide)

/-- C9: a matched block whose raw reasoning capture contains 20 or more
newline characters (step count, newlines + 1, above 20) contributes no
record — the parser loop skips it — and every returned record's reasoning
spans at most 20 lines. -/
theorem parse_generated_questions_reasoning_bound (t : String)
    (sofar : List QuestionObj) :
    (∀ (b : RawBlock) (rest : List RawBlock) (seen : List String),
      20 ≤ countNewlines b.reasoning →
      processBlocks (b :: rest) seen = processBlocks rest seen) ∧
    (∀ r ∈ parse_generated_questions t sofar,
      countNewlines r.reasoning.data + 1 ≤ 20) := by
  constructor
  · intro b rest seen h20
    simp only [processBlocks]
    rw [if_pos (by omega)]
  · intro r hr
    rw [parse_generated_questions_eq] at hr
    obtain ⟨b, hb, rfl, h20⟩ := processBlocks_mem _ _ r hr
    have hstrip : countNewlines (pyStripList b.reasoning) ≤
        countNewlines b.reasoning := countNewlines_pyStrip_le _
    have hdata : (mkQuestionObj b).reasoning.data = pyStripList b.reasoning :=
      rfl
    rw [hdata]
    omega

/-- Witness for C9: a block whose reasoning capture is 20 newlines is
skipped. -/
theorem parse_generated_questions_reasoning_bound_witness :
    processBlocks [⟨"0".data, "q".data, "d".data, "t".data, "a".data,
      "b".data, "c".data, "dd".data, "A".data,
      List.replicate 20 (Char.ofNat 10)⟩] [] = [] := by
  have h := (parse_generated_questions_reasoning_bound "" []).1
    ⟨"0".data, "q".data, "d".data, "t".data, "a".data, "b".data, "c".data,
      "dd".data, "A".data, List.replicate 20 (Char.ofNat 10)⟩ [] []
    (by decide)
  exact h.trans rfl

/-- C8: the parser never returns a duplicate — each returned record's
content key (question, the four options and reasoning joined by bars)
differs from every record of `questions_list_so_far` and from every other
record of the same returned list — so extending a session list whose keys
are distinct keeps all content keys pairwise distinct. -/
theorem parse_generated_questions_no_duplicates (t : String)
    (sofar : List QuestionObj) :
    (∀ r ∈ parse_generated_questions t sofar,
      ∀ q ∈ sofar, contentKey r ≠ contentKey q) ∧
    (parse_generated_questions t sofar).Pairwise
      (fun a b => contentKey a ≠ contentKey b) ∧
    ((sofar.map contentKey).Nodup →
      ((sofar ++ parse_generated_questions t sofar).map contentKey).Nodup) := by
  have hfresh : ∀ r ∈ parse_generated_questions t sofar,
      contentKey r ∉ sofar.map contentKey := by
    intro r hr
    rw [parse_generated_questions_eq] at hr
    exact processBlocks_key_not_seen _ _ r hr
  refine ⟨?_, ?_, ?_⟩
  · intro r hr q hq heq
    exact hfresh r hr (heq ▸ List.mem_map_of_mem contentKey hq)
  · rw [parse_generated_questions_eq]
    exact processBlocks_pairwise _ _
  · intro hnd
    rw [List.map_append, List.nodup_append]
    refine ⟨hnd, ?_, ?_⟩
    · have hp : (parse_generated_questions t sofar).Pairwise
          (fun a b => contentKey a ≠ contentKey b) := by
        rw [parse_generated_questions_eq]
        exact processBlocks_pairwise _ _
      exact List.pairwise_map.mpr hp
    · intro a ha hb
      obtain ⟨r, hr, rfl⟩ := List.mem_map.mp hb
      exact hfresh r hr ha

/-- Witness for C8 with an empty session list. -/
theorem parse_generated_questions_no_duplicates_witness :
    ((([] : List QuestionObj) ++
      parse_generated_questions "x" []).map contentKey).Nodup :=
  (parse_generated_questions_no_duplicates "x" []).2.2 (by decide)

/-- C6: after Check Answer with a selection made, the feedback reports
Correct exactly when the first character of the selected option string
equals the first occurrence of a letter A, B, C or D in the record's
stored answer field; when the answer field contains no such letter, the
correct letter is rendered as a question mark and none of the four radio
selections is ever judged correct. -/
theorem display_mcq_feedback_spec (item : QuestionObj) :
    (∀ L : Char, findCorrectLetter item.answer = some L →
      ∀ selected : String,
        (feedbackCorrect selected item = true ↔
          userLetter selected = some L)) ∧
    (findCorrectLetter item.answer = none →
      correctLetter item.answer = '?' ∧
      ∀ s ∈ radioOptions item.options, feedbackCorrect s item = false) := by
  constructor
  · intro L hL selected
    have hcl : correctLetter item.answer = L := by
      rw [correctLetter, hL]
      rfl
    rw [feedbackCorrect]
    cases hu : userLetter selected with
    | none => simp
    | some c => simp [hcl]
  · intro h
    have hcl : correctLetter item.answer = '?' := by
      rw [correctLetter, h]
      rfl
    refine ⟨hcl, ?_⟩
    have hA : ∀ x : String, userLetter ("A) " ++ x) = some 'A' := fun _ => rfl
    have hB : ∀ x : String, userLetter ("B) " ++ x) = some 'B' := fun _ => rfl
    have hC : ∀ x : String, userLetter ("C) " ++ x) = some 'C' := fun _ => rfl
    have hD : ∀ x : String, userLetter ("D) " ++ x) = some 'D' := fun _ => rfl
    intro s hs
    simp only [radioOptions, List.mem_cons, List.not_mem_nil, or_false] at hs
    rcases hs with rfl | rfl | rfl | rfl
    · rw [feedbackCorrect, hA, hcl]; decide
    · rw [feedbackCorrect, hB, hcl]; decide
    · rw [feedbackCorrect, hC, hcl]; decide
    · rw [feedbackCorrect, hD, hcl]; decide

/-- Witness for C6: selecting B on a record whose answer field is (B). -/
theorem display_mcq_feedback_spec_witness :
    feedbackCorrect "B) b"
      ⟨"q", "d", "t", ⟨"a", "b", "c", "dd"⟩, "0", "(B)", "r"⟩ = true :=
  ((display_mcq_feedback_spec
    ⟨"q", "d", "t", ⟨"a", "b", "c", "dd"⟩, "0", "(B)", "r"⟩).1 'B'
    (by decide) "B) b").mpr (by decide)

/-- C7: with a nonempty displayed list and a nonnegative session index,
exactly one question is rendered per rerun — the one at the
(safety-checked) current index, a valid position of the list; the safety
check resets any index not below the list length to 0; `prev_q` never
takes the index below 0 and keeps it in range; and the Next button,
offered only while the index is below the last position, also keeps the
index in range. -/
theorem display_mcq_session_index_spec (l : List QuestionObj) (idx : Int)
    (hl : l ≠ []) (hidx : 0 ≤ idx) :
    (0 ≤ clampIndex idx l.length ∧
      clampIndex idx l.length < (l.length : Int)) ∧
    displayedItem l idx = l.get? (clampIndex idx l.length).toNat ∧
    (displayedItem l idx).isSome = true ∧
    ((l.length : Int) ≤ idx → clampIndex idx l.length = 0) ∧
    (∀ b : Bool,
      0 ≤ (prev_q ⟨clampIndex idx l.length, b⟩).current_index ∧
      (prev_q ⟨clampIndex idx l.length, b⟩).current_index <
        (l.length : Int)) ∧
    (nextOffered (clampIndex idx l.length) l.length = true →
      ∀ b : Bool,
        0 ≤ (next_q ⟨clampIndex idx l.length, b⟩).current_index ∧
        (next_q ⟨clampIndex idx l.length, b⟩).current_index <
          (l.length : Int)) := by
  have hlen : 0 < l.length := List.length_pos.mpr hl
  have hbounds : 0 ≤ clampIndex idx l.length ∧
      clampIndex idx l.length < (l.length : Int) := by
    rw [clampIndex]
    split_ifs with h
    · constructor
      · omega
      · exact_mod_cast hlen
    · omega
  refine ⟨hbounds, ?_, ?_, ?_, ?_, ?_⟩
  · rw [displayedItem, pyIndex, if_pos hbounds.1]
  · rw [displayedItem, pyIndex, if_pos hbounds.1]
    have hlt : (clampIndex idx l.length).toNat < l.length := by omega
    rw [List.get?_eq_getElem?, List.getElem?_eq_getElem hlt]
    rfl
  · intro h
    rw [clampIndex, if_pos (by omega)]
  · intro b
    have hpq : prev_q ⟨clampIndex idx l.length, b⟩ =
        if clampIndex idx l.length > 0 then
          ⟨clampIndex idx l.length - 1, false⟩
        else ⟨clampIndex idx l.length, b⟩ := rfl
    rw [hpq]
    split_ifs with h
    · constructor
      · show (0 : Int) ≤ clampIndex idx l.length - 1
        omega
      · show clampIndex idx l.length - 1 < (l.length : Int)
        omega
    · exact hbounds
  · intro hoff b
    rw [nextOffered] at hoff
    simp only [decide_eq_true_eq] at hoff
    constructor
    · show (0 : Int) ≤ clampIndex idx l.length + 1
      omega
    · show clampIndex idx l.length + 1 < (l.length : Int)
      omega

/-- Witness for C7 on a one-element list at index 0. -/
theorem display_mcq_session_index_spec_witness :
    displayedItem [⟨"q", "d", "t", ⟨"a", "b", "c", "dd"⟩, "0", "A", "r"⟩] 0 =
      some ⟨"q", "d", "t", ⟨"a", "b", "c", "dd"⟩, "0", "A", "r"⟩ := by
  have h := (display_mcq_session_index_spec
    [⟨"q", "d", "t", ⟨"a", "b", "c", "dd"⟩, "0", "A", "r"⟩] 0
    (by decide) (by decide)).2.1
  exact h.trans (by decide)
